import Mathlib

/-!
Verification development for the CCF-Lens repository (a userscript that
annotates academic paper listings with CCF-rank badges).

The development shallowly embeds the core TypeScript modules:

* `src/labelpilot/src/core/venue-matcher.ts` — the regex-based venue
  cleaning / acronym / multi-level matching pipeline.  JavaScript regexes
  are embedded through a small backtracking regex engine (`Regex`) whose
  candidate ordering mirrors the leftmost-first, greedy-with-backtracking
  semantics of JS `RegExp`, including word boundaries, anchors, the
  global-replace scan and the `i` flag.
* `src/ccf-lens/src/core/ccf-catalog.ts` — catalog loading with
  rank-preferring abbreviation-collision resolution.
* `src/labelpilot/src/adapters/site-manager.ts` — idempotent page
  processing, statistics, rank filtering.
* `src/labelpilot/src/adapters/index.ts` (CacheManager) — the two-tier
  TTL cache, with `Date.now()` made an explicit parameter.

JS `Map`s are embedded as association lists with in-place update
(`mset` / `mget`), JS `Set`s as id lists, and timestamps as `Nat`.
-/

namespace CCFLens

/-! ### Characters: the JS character classes used by the source patterns -/

/-- JS `\s` (ECMA-262 WhiteSpace ∪ LineTerminator), as used by the
    cleaning patterns and by `String.prototype.trim`. -/
def isSpaceCh (c : Char) : Bool :=
  c = ' ' || c = '\t' || c = '\n' || c = '\r' || c = '\u000b' || c = '\u000c' ||
  c = '\u00a0' || c = '\u1680' || ('\u2000' ≤ c && c ≤ '\u200a') ||
  c = '\u2028' || c = '\u2029' || c = '\u202f' || c = '\u205f' ||
  c = '\u3000' || c = '\ufeff'

/-- JS `\d`. -/
def isDigitCh (c : Char) : Bool := '0' ≤ c && c ≤ '9'

/-- JS `\w` = `[A-Za-z0-9_]`, the class behind `\b` word boundaries. -/
def isWordCh (c : Char) : Bool :=
  ('a' ≤ c && c ≤ 'z') || ('A' ≤ c && c ≤ 'Z') || isDigitCh c || c = '_'

/-- ASCII lower-casing (the inputs the source manipulates are ASCII;
    `String.prototype.toLowerCase` agrees with this on ASCII). -/
def toLowerCh (c : Char) : Char :=
  if 'A' ≤ c && c ≤ 'Z' then Char.ofNat (c.toNat + 32) else c

/-- ASCII upper-casing (used by `generateAcronym`'s `toUpperCase()`). -/
def toUpperCh (c : Char) : Char :=
  if 'a' ≤ c && c ≤ 'z' then Char.ofNat (c.toNat - 32) else c

/-- `venue.toLowerCase()` on the embedded string. -/
def lowerStr (s : String) : String := ⟨s.data.map toLowerCh⟩

/-- `String.prototype.trim`. -/
def trimStr (s : String) : String :=
  ⟨(((s.data.dropWhile isSpaceCh).reverse.dropWhile isSpaceCh).reverse)⟩

/-! ### A small backtracking regex engine with JS semantics

The source's patterns only quantify over single-character classes
(`\s*`, `\d+`, `[^)]*`, …), so the engine needs no general Kleene star:
`star`/`plus` take a character class directly.  `Regex.here` returns the
list of possible `(consumed-reversed, remaining)` states **in JS priority
order** (greedy, first alternative first); a JS match is the head of that
list at the leftmost position where it is non-empty. -/

inductive Regex where
  | eps : Regex
  | cls (p : Char → Bool) : Regex
  | cat (r s : Regex) : Regex
  | alt (r s : Regex) : Regex
  | opt (r : Regex) : Regex
  | star (p : Char → Bool) : Regex
  | plus (p : Char → Bool) : Regex
  | wb : Regex
  | bos : Regex
  | eos : Regex

/-- Test a character against a class, honouring the `i` flag the way the
    source uses it: every `i`-flagged pattern in the source is written in
    lower case, so case-insensitive matching lowercases the subject char. -/
def clsMatch (ci : Bool) (p : Char → Bool) (c : Char) : Bool :=
  if ci then p (toLowerCh c) else p c

/-- Maximal run of class characters at the front (for greedy `p*` / `p+`). -/
def takeRun (ci : Bool) (p : Char → Bool) : List Char → List Char × List Char
  | [] => ([], [])
  | c :: cs =>
    if clsMatch ci p c then
      let (r, rest) := takeRun ci p cs
      (c :: r, rest)
    else ([], c :: cs)

/-- All ways to consume a prefix of `run` (then face `rest`), longest
    first — the backtracking order of a greedy quantifier. -/
def splitsFrom (left : List Char) : List Char → List Char → List (List Char × List Char)
  | [], rest => [(left, rest)]
  | c :: cs, rest => splitsFrom (c :: left) cs rest ++ [(left, c :: (cs ++ rest))]

/-- Is the position between `left` (reversed prefix) and `right` a JS
    `\b` word boundary? -/
def wordB (left right : List Char) : Bool :=
  (left.head?.elim false isWordCh) != (right.head?.elim false isWordCh)

/-- All candidate matches of a regex at the current position, in JS
    backtracking priority order.  `left` is the (reversed) text before the
    position — needed by `\b` and `^`. -/
def Regex.here (ci : Bool) : Regex → List Char → List Char → List (List Char × List Char)
  | .eps, l, r => [(l, r)]
  | .cls p, l, r =>
    match r with
    | [] => []
    | c :: rest => if clsMatch ci p c then [(c :: l, rest)] else []
  | .cat r1 r2, l, r => (r1.here ci l r).flatMap fun lr => r2.here ci lr.1 lr.2
  | .alt r1 r2, l, r => r1.here ci l r ++ r2.here ci l r
  | .opt r1, l, r => r1.here ci l r ++ [(l, r)]
  | .star p, l, r =>
    let (run, rest) := takeRun ci p r
    splitsFrom l run rest
  | .plus p, l, r =>
    match r with
    | [] => []
    | c :: rest =>
      if clsMatch ci p c then
        let (run, rest2) := takeRun ci p rest
        splitsFrom (c :: l) run rest2
      else []
  | .wb, l, r => if wordB l r then [(l, r)] else []
  | .bos, l, r => if l.isEmpty then [(l, r)] else []
  | .eos, l, r => if r.isEmpty then [(l, r)] else []

/-- The JS match at the current position: the highest-priority candidate. -/
def searchHead (re : Regex) (ci : Bool) (l r : List Char) : Option (List Char × List Char) :=
  (re.here ci l r).head?

/-- Global replace, scanning positions left to right over the original
    text exactly like `String.prototype.replace` with a `g` regex (none of
    the source's replace patterns can match the empty string, and the
    guard `r'.length < fuel` keeps an empty match from looping).  `fuel`
    starts at the text length, which bounds the number of steps. -/
def replAllAux (re : Regex) (ci : Bool) (rep : List Char) :
    Nat → List Char → List Char → List Char
  | 0, _, _ => []
  | _ + 1, _, [] => []
  | fuel + 1, l, c :: r =>
    match searchHead re ci l (c :: r) with
    | some (l', r') =>
      if r'.length < r.length + 1 then rep ++ replAllAux re ci rep fuel l' r'
      else c :: replAllAux re ci rep fuel (c :: l) r
    | none => c :: replAllAux re ci rep fuel (c :: l) r

/-- `s.replace(re, rep)` for a `g`-flagged JS regex `re`. -/
def jsReplace (re : Regex) (ci : Bool) (rep : String) (s : String) : String :=
  ⟨replAllAux re ci rep.data s.data.length [] s.data⟩

/-- `re.test(s)` scanning helper. -/
def testAux (re : Regex) (ci : Bool) : List Char → List Char → Bool
  | l, r =>
    if (re.here ci l r).isEmpty then
      match r with
      | [] => false
      | c :: rest => testAux re ci (c :: l) rest
    else true

/-- `re.test(s)` for a JS regex. -/
def jsTest (re : Regex) (ci : Bool) (s : String) : Bool := testAux re ci [] s.data

/-- A literal character. -/
def chC (c : Char) : Regex := .cls (fun x => x = c)

/-- A literal string. -/
def lit : List Char → Regex
  | [] => .eps
  | c :: cs => .cat (chC c) (lit cs)

/-- A literal string, from string syntax. -/
def litS (s : String) : Regex := lit s.data

/-! ### The CLEAN_PATTERNS of `venue-matcher.ts`

Each definition embeds one entry of the `CLEAN_PATTERNS` object; the doc
comment quotes the TS regex literal. -/

/-- `/\b(19|20)\d{2}\b|'\d{2}\b/g` — year patterns. -/
def yearRe : Regex :=
  .alt
    (.cat .wb (.cat (.alt (litS "19") (litS "20"))
      (.cat (.cls isDigitCh) (.cat (.cls isDigitCh) .wb))))
    (.cat (chC '\'') (.cat (.cls isDigitCh) (.cat (.cls isDigitCh) .wb)))

/-- `/\b(vol\.?|volume)\s*\d+\b/gi` — volume patterns. -/
def volumeRe : Regex :=
  .cat .wb (.cat
    (.alt (.cat (litS "vol") (.opt (chC '.'))) (litS "volume"))
    (.cat (.star isSpaceCh) (.cat (.plus isDigitCh) .wb)))

/-- `/\b(no\.?|number|issue|iss\.?)\s*\d+\b/gi` — issue/number patterns. -/
def issueRe : Regex :=
  .cat .wb (.cat
    (.alt (.cat (litS "no") (.opt (chC '.')))
      (.alt (litS "number")
        (.alt (litS "issue") (.cat (litS "iss") (.opt (chC '.'))))))
    (.cat (.star isSpaceCh) (.cat (.plus isDigitCh) .wb)))

/-- `/\b(pp?\.?|pages?)\s*\d+(-\d+)?\b/gi` — page patterns. -/
def pagesRe : Regex :=
  .cat .wb (.cat
    (.alt (.cat (chC 'p') (.cat (.opt (chC 'p')) (.opt (chC '.'))))
      (.cat (litS "page") (.opt (chC 's'))))
    (.cat (.star isSpaceCh)
      (.cat (.plus isDigitCh)
        (.cat (.opt (.cat (chC '-') (.plus isDigitCh))) .wb))))

/-- `/\b\d+(st|nd|rd|th)\s*(edition|ed\.?)?\b/gi` — edition patterns. -/
def editionRe : Regex :=
  .cat .wb (.cat (.plus isDigitCh)
    (.cat (.alt (litS "st") (.alt (litS "nd") (.alt (litS "rd") (litS "th"))))
      (.cat (.star isSpaceCh)
        (.cat (.opt (.alt (litS "edition") (.cat (litS "ed") (.opt (chC '.'))))) .wb))))

/-- `/^proceedings\s+(of\s+)?(the\s+)?/gi` — proceedings prefix. -/
def proceedingsRe : Regex :=
  .cat .bos (.cat (litS "proceedings")
    (.cat (.plus isSpaceCh)
      (.cat (.opt (.cat (litS "of") (.plus isSpaceCh)))
        (.opt (.cat (litS "the") (.plus isSpaceCh))))))

/-- Dash class of the suffix pattern: `[-–—]` (hyphen, en dash, em dash). -/
def isDashCh (c : Char) : Bool := c = '-' || c = '–' || c = '—'

/-- `/\s*[-–—]\s*(proceedings|workshop|symposium|conference)?\s*$/gi` —
    common suffixes. -/
def suffixesRe : Regex :=
  .cat (.star isSpaceCh) (.cat (.cls isDashCh)
    (.cat (.star isSpaceCh)
      (.cat (.opt (.alt (litS "proceedings")
          (.alt (litS "workshop") (.alt (litS "symposium") (litS "conference")))))
        (.cat (.star isSpaceCh) .eos))))

/-- `/\([^)]*\)/g` — parenthetical content. -/
def parentheticalRe : Regex :=
  .cat (chC '(') (.cat (.star (fun c => ¬ c = ')')) (chC ')'))

/-- `/\s+/g` — multiple spaces. -/
def multipleSpacesRe : Regex := .plus isSpaceCh

/-- Punctuation class of the trim pattern: `[\s,.:;-]`. -/
def isPunctCh (c : Char) : Bool :=
  isSpaceCh c || c = ',' || c = '.' || c = ':' || c = ';' || c = '-'

/-- `/^[\s,.:;-]+|[\s,.:;-]+$/g` — leading/trailing punctuation. -/
def punctuationRe : Regex :=
  .alt (.cat .bos (.plus isPunctCh)) (.cat (.plus isPunctCh) .eos)

/-! ### `VenueMatcher.cleanVenue` -/

/-- `VenueMatcher.cleanVenue` from `venue-matcher.ts`: the chained
    `.replace` pipeline over `CLEAN_PATTERNS`, then `.trim()`.  The `gi`
    patterns pass `ci := true`, the plain `g` patterns `ci := false`,
    and the replacement strings are those of the source. -/
def cleanVenue (venue : String) : String :=
  if venue = "" then ""
  else
    trimStr <|
      jsReplace punctuationRe false "" <|
      jsReplace multipleSpacesRe false " " <|
      jsReplace suffixesRe true "" <|
      jsReplace proceedingsRe true "" <|
      jsReplace editionRe true " " <|
      jsReplace pagesRe true " " <|
      jsReplace issueRe true " " <|
      jsReplace volumeRe true " " <|
      jsReplace yearRe false " " <|
      jsReplace parentheticalRe false " " venue

/-! ### Data model: `CCFEntry`, `MatchConfidence`, `MatchResult` -/

/-- CCF ranking: `'A' | 'B' | 'C'` (from `ccf-catalog.ts`). -/
inductive Rank where
  | A | B | C
deriving DecidableEq

/-- Venue type: `'journal' | 'conference'`. -/
inductive VenueKind where
  | journal | conference
deriving DecidableEq

/-- An entry of the CCF catalog (`CCFEntry` in `ccf-catalog.ts`; the
    source's `type` field is called `kind` here). -/
structure CCFEntry where
  name : String
  abbr : String
  rank : Rank
  kind : VenueKind
  category : String
  aliases : List String
deriving DecidableEq

/-- Match confidence levels (`'exact' | 'cleaned' | 'partial' | 'acronym'
    | 'none'`); the trailing `C` keeps the constructors clear of Lean
    keywords. -/
inductive MatchConfidence where
  | exactC | cleanedC | partialC | acronymC | noneC
deriving DecidableEq

/-- Result of a venue matching operation (`MatchResult`). -/
structure MatchResult where
  matched : Bool
  entry : Option CCFEntry
  confidence : MatchConfidence
  originalVenue : String
  cleanedVenue : String
deriving DecidableEq

/-- What `VenueMatcher` needs from its catalog dependency (`this.catalog`):
    `findByKey` and `getAllEntries`.  The matcher theorems quantify over
    this view, covering any loaded catalog. -/
structure CatalogView where
  findByKey : String → Option CCFEntry
  getAllEntries : List CCFEntry

/-! ### `VenueMatcher.generateAcronym` -/

/-- Words skipped when generating an acronym (the `skipWords` set). -/
def acronymSkipWords : List String :=
  ["a", "an", "the", "of", "on", "in", "for", "and", "or", "to", "with",
   "proceedings", "international", "annual", "conference", "symposium",
   "workshop", "journal", "transactions", "ieee", "acm"]

/-- Characters that survive `replace(/[^a-z0-9\s]/g, ' ')` after
    lower-casing and are not split points of `split(/\s+/)`. -/
def isAcroChar (c : Char) : Bool := ('a' ≤ c && c ≤ 'z') || isDigitCh c

/-- Maximal runs of `p`-characters (the tokens of `split(/\s+/)` after the
    non-alphanumeric characters were replaced by spaces). -/
def splitRunsAux (p : Char → Bool) : List Char → List Char → List (List Char)
  | cur, [] => if cur.isEmpty then [] else [cur.reverse]
  | cur, c :: cs =>
    if p c then splitRunsAux p (c :: cur) cs
    else if cur.isEmpty then splitRunsAux p [] cs
    else cur.reverse :: splitRunsAux p [] cs

/-- `VenueMatcher.generateAcronym`: lowercase, keep `[a-z0-9]` runs as
    words, drop stop words, take first characters, uppercase. -/
def generateAcronym (venue : String) : String :=
  if venue = "" then ""
  else
    let words := (splitRunsAux isAcroChar [] (venue.data.map toLowerCh)).filter
      fun w => w.length > 0 && !(acronymSkipWords.contains ⟨w⟩)
    ⟨(words.filterMap List.head?).map toUpperCh⟩

/-! ### `VenueMatcher.findPartialMatch` and `VenueMatcher.match` -/

/-- Stable insertion for the source's
    `sort((a, b) => b.abbr.length - a.abbr.length)` (descending by
    abbreviation length; `Array.prototype.sort` is stable). -/
def insertByAbbrLen (e : CCFEntry) : List CCFEntry → List CCFEntry
  | [] => [e]
  | x :: xs =>
    if e.abbr.length < x.abbr.length then x :: insertByAbbrLen e xs
    else e :: x :: xs

/-- The sorted entry list used by the partial scan. -/
def sortByAbbrLenDesc (l : List CCFEntry) : List CCFEntry :=
  l.foldr insertByAbbrLen []

/-- `new RegExp('\\b' + escapeRegex(pat) + '\\b', 'i').test(text)` — the
    escaping makes the pattern a literal, so the embedding takes the
    literal directly. -/
def wordBoundedTest (pat : String) (text : List Char) : Bool :=
  testAux (.cat .wb (.cat (litS pat) .wb)) true [] text

/-- One entry's test inside the partial-match loop: the abbreviation as a
    word-bounded substring, else any alias of length ≥ 3 likewise. -/
def entryPartialHit (normalizedVenue : List Char) (e : CCFEntry) : Bool :=
  wordBoundedTest (lowerStr e.abbr) normalizedVenue ||
  e.aliases.any fun al =>
    let aliasLower := lowerStr al
    aliasLower.length ≥ 3 && wordBoundedTest aliasLower normalizedVenue

/-- `VenueMatcher.findPartialMatch`: first hit over the entries sorted by
    abbreviation length, longest first. -/
def findPartialMatch (cat : CatalogView) (venue : String) : Option CCFEntry :=
  let normalizedVenue := venue.data.map toLowerCh
  (sortByAbbrLenDesc cat.getAllEntries).find? (entryPartialHit normalizedVenue)

/-- The no-match `MatchResult` (`noMatch` in the source). -/
def noMatchOf (ov cv : String) : MatchResult :=
  { matched := false, entry := none, confidence := .noneC,
    originalVenue := ov, cleanedVenue := cv }

/-- `VenueMatcher.match`: the ordered four-strategy cascade (`match` is a
    Lean keyword, hence `matchVenue`). -/
def matchVenue (cat : CatalogView) (venue : String) : MatchResult :=
  let originalVenue := venue
  let cleanedVenue := cleanVenue venue
  if venue = "" ∨ trimStr venue = "" then noMatchOf originalVenue cleanedVenue
  else
    match cat.findByKey (trimStr venue) with
    | some exactEntry =>
      { matched := true, entry := some exactEntry, confidence := .exactC,
        originalVenue := originalVenue, cleanedVenue := cleanedVenue }
    | none =>
      match (if cleanedVenue ≠ "" ∧ cleanedVenue ≠ lowerStr (trimStr venue)
             then cat.findByKey cleanedVenue else none) with
      | some cleanedEntry =>
        { matched := true, entry := some cleanedEntry, confidence := .cleanedC,
          originalVenue := originalVenue, cleanedVenue := cleanedVenue }
      | none =>
        match findPartialMatch cat venue with
        | some partialEntry =>
          { matched := true, entry := some partialEntry, confidence := .partialC,
            originalVenue := originalVenue, cleanedVenue := cleanedVenue }
        | none =>
          let acronym := generateAcronym (if cleanedVenue ≠ "" then cleanedVenue else venue)
          match (if acronym ≠ "" ∧ acronym.length ≥ 2
                 then cat.findByKey acronym else none) with
          | some acronymEntry =>
            { matched := true, entry := some acronymEntry, confidence := .acronymC,
              originalVenue := originalVenue, cleanedVenue := cleanedVenue }
          | none => noMatchOf originalVenue cleanedVenue

/-! ### JS `Map` embedding

Association lists with the observable behavior of a JS `Map`: `set` on an
existing key updates in place, on a fresh key appends; `get` finds the
binding; `delete` removes it. -/

/-- `Map.prototype.get`. -/
def mget {α : Type} : List (String × α) → String → Option α
  | [], _ => none
  | kv :: rest, k => if kv.1 = k then some kv.2 else mget rest k

/-- `Map.prototype.set`. -/
def mset {α : Type} : List (String × α) → String → α → List (String × α)
  | [], k, v => [(k, v)]
  | kv :: rest, k, v => if kv.1 = k then (k, v) :: rest else kv :: mset rest k v

/-- `Map.prototype.delete`. -/
def mdel {α : Type} : List (String × α) → String → List (String × α)
  | [], _ => []
  | kv :: rest, k => if kv.1 = k then rest else kv :: mdel rest k

/-- `Set.prototype.add` (JS sets ignore duplicates). -/
def sadd (s : List String) (x : String) : List String :=
  if s.contains x then s else s ++ [x]

/-! ### `CCFCatalog` (the `ccf-lens` variant, `ccf-catalog.ts`)

The catalog's two maps: `entries` keyed by normalized abbreviation
(collision-resolved primary) and `lookupIndex` keyed by every normalized
abbreviation / name / alias. -/

structure CatState where
  entries : List (String × CCFEntry)
  lookupIndex : List (String × CCFEntry)
deriving DecidableEq

/-- `key.toLowerCase().trim()` — the normalization used by both
    `addToLookupIndex` and `findByKey`. -/
def normKey (key : String) : String := trimStr (lowerStr key)

/-- Rank preference score of `isPreferredPrimary`: `{ A: 3, B: 2, C: 1 }`. -/
def rankScore : Rank → Nat
  | .A => 3
  | .B => 2
  | .C => 1

/-- `CCFCatalog.isPreferredPrimary`: strictly higher rank wins; otherwise
    keep the existing (first-loaded) entry. -/
def isPreferredPrimary (candidate existing : CCFEntry) : Bool :=
  rankScore candidate.rank > rankScore existing.rank

/-- `CCFCatalog.addToLookupIndex`: write only a fresh, non-empty
    normalized key (first-writer-wins). -/
def addToLookupIndex (st : CatState) (key : String) (e : CCFEntry) : CatState :=
  let normalizedKey := normKey key
  if normalizedKey ≠ "" ∧ (mget st.lookupIndex normalizedKey).isNone then
    { st with lookupIndex := mset st.lookupIndex normalizedKey e }
  else st

/-- One iteration of the `loadCatalog` loop: collision-resolved primary
    into `entries` (and, together with it, the abbreviation key of
    `lookupIndex`), then the name and every alias into `lookupIndex`. -/
def loadEntry (st : CatState) (e : CCFEntry) : CatState :=
  let abbrKey := trimStr (lowerStr e.abbr)
  let st1 :=
    match mget st.entries abbrKey with
    | none =>
      { entries := mset st.entries abbrKey e,
        lookupIndex := mset st.lookupIndex abbrKey e }
    | some existingPrimary =>
      if isPreferredPrimary e existingPrimary then
        { entries := mset st.entries abbrKey e,
          lookupIndex := mset st.lookupIndex abbrKey e }
      else st
  let st2 := addToLookupIndex st1 e.name e
  e.aliases.foldl (fun s al => addToLookupIndex s al e) st2

/-- `CCFCatalog.loadCatalog` over the backing dataset's entry list. -/
def loadCatalog (raws : List CCFEntry) : CatState :=
  raws.foldl loadEntry { entries := [], lookupIndex := [] }

/-- `CCFCatalog.findByKey`. -/
def catFindByKey (st : CatState) (key : String) : Option CCFEntry :=
  if key = "" then none else mget st.lookupIndex (normKey key)

/-- Collision rule as claim C5 words it, written independently of the
    loading loop: among the dataset entries whose normalized abbreviation
    is `k`, the higher rank (A > B > C) wins and ties keep the
    first-loaded entry. -/
def expectedPrimary (raws : List CCFEntry) (k : String) : Option CCFEntry :=
  (raws.filter fun e => trimStr (lowerStr e.abbr) = k).foldl
    (fun acc e =>
      match acc with
      | none => some e
      | some cur => if rankScore e.rank > rankScore cur.rank then some e else acc)
    none

/-! ### `SiteManager` (the `labelpilot` variant, `site-manager.ts`) -/

/-- The fields of `PaperInfo` that `processCurrentPage` consumes (the
    element handles play no role in the tracked state). -/
structure PaperInfo where
  id : String
  title : String
  year : Option String
  venue : Option String
deriving DecidableEq

/-- `ProcessedPaperInfo`: the paper plus its match result and the
    `processed` flag. -/
structure ProcessedPaperInfo where
  paper : PaperInfo
  matchResult : MatchResult
  processed : Bool
deriving DecidableEq

/-- The tracker's state: `processedPapers` (a `Map`) and
    `processedElements` (a `Set` of ids). -/
structure SiteManagerState where
  processedPapers : List (String × ProcessedPaperInfo)
  processedElements : List String
deriving DecidableEq

/-- The body of the `for (const paper of papers)` loop in
    `processCurrentPage`: skip ids already in `processedElements`
    (idempotency), otherwise match the venue (the literal no-match result
    when `paper.venue` is absent or empty, i.e. falsy) and record the
    paper in both structures. -/
def processPaper (cat : CatalogView) (st : SiteManagerState) (paper : PaperInfo) :
    SiteManagerState :=
  if st.processedElements.contains paper.id then st
  else
    let matchResult :=
      match paper.venue with
      | some v => if v ≠ "" then matchVenue cat v else noMatchOf "" ""
      | none => noMatchOf "" ""
    { processedPapers :=
        mset st.processedPapers paper.id
          { paper := paper, matchResult := matchResult, processed := false },
      processedElements := sadd st.processedElements paper.id }

/-- `SiteManager.processCurrentPage` against the adapter result set
    `papers` (`this.currentAdapter.getPapers()`). -/
def processCurrentPage (cat : CatalogView) (papers : List PaperInfo)
    (st : SiteManagerState) : SiteManagerState :=
  papers.foldl (processPaper cat) st

/-- The `byRank` histogram of `getStatistics`. -/
structure RankStats where
  A : Nat
  B : Nat
  C : Nat
  unknown : Nat
deriving DecidableEq

/-- One iteration of the statistics loop:
    `matchResult.matched && matchResult.entry` bumps that entry's rank
    bucket, anything else bumps `unknown`. -/
def statStep (s : RankStats) (p : ProcessedPaperInfo) : RankStats :=
  match p.matchResult.matched, p.matchResult.entry with
  | true, some e =>
    match e.rank with
    | .A => { s with A := s.A + 1 }
    | .B => { s with B := s.B + 1 }
    | .C => { s with C := s.C + 1 }
  | true, none => { s with unknown := s.unknown + 1 }
  | false, _ => { s with unknown := s.unknown + 1 }

/-- `SiteManager.getStatistics`: total = tracked-map size, plus the
    per-rank histogram. -/
def getStatistics (st : SiteManagerState) : Nat × RankStats :=
  (st.processedPapers.length,
   st.processedPapers.foldl (fun s kv => statStep s kv.2)
     { A := 0, B := 0, C := 0, unknown := 0 })

/-- `SiteManager.getPapersByRank`: `null` selects the unmatched subset,
    a rank selects `matchResult.entry?.rank === rank`. -/
def getPapersByRank (st : SiteManagerState) (rank : Option Rank) :
    List ProcessedPaperInfo :=
  (st.processedPapers.map Prod.snd).filter fun p =>
    match rank with
    | none => !p.matchResult.matched
    | some r =>
      match p.matchResult.entry with
      | some e => e.rank = r
      | none => false

/-! ### `CacheManager` (`adapters/index.ts`)

`Date.now()` becomes an explicit `now : Nat` argument; the GM persistent
store is the `storage` field (its `try/catch` wrappers never fail in the
embedding, matching the source's happy path and its suppressed-error
contract). -/

/-- `CacheEntry<T>` of the source (`value`, `timestamp`, `ttl`). -/
structure CacheEntry (V : Type) where
  value : V
  timestamp : Nat
  ttl : Nat
deriving DecidableEq

/-- `DEFAULT_TTL = 7 * 24 * 60 * 60 * 1000` (7 days in ms). -/
def DEFAULT_TTL : Nat := 7 * 24 * 60 * 60 * 1000

/-- `CACHE_PREFIX`. -/
def CACHE_PREFIX : String := "ccf_rank_cache_"

/-- `getStorageKey`. -/
def getStorageKey (key : String) : String := CACHE_PREFIX ++ key

/-- The two tiers: `memoryCache` (in-process `Map`) and the persistent GM
    store with prefixed keys. -/
structure CacheState (V : Type) where
  memoryCache : List (String × CacheEntry V)
  storage : List (String × CacheEntry V)
deriving DecidableEq

/-- `isExpired`: `now - entry.timestamp > entry.ttl` (truncated `Nat`
    subtraction agrees with JS here: a negative JS difference is never
    `> ttl`, just as `0` is not). -/
def isExpired {V : Type} (now : Nat) (e : CacheEntry V) : Bool :=
  e.ttl < now - e.timestamp

/-- `CacheManager.delete`: remove the key from both tiers. -/
def cacheDelete {V : Type} (st : CacheState V) (key : String) : CacheState V :=
  { memoryCache := mdel st.memoryCache key,
    storage := mdel st.storage (getStorageKey key) }

/-- `CacheManager.get`: memory first (deleting an expired hit), then the
    persistent store (repopulating memory on a fresh hit, deleting an
    expired one).  Returns the value and the possibly-updated state. -/
def cacheGet {V : Type} (now : Nat) (st : CacheState V) (key : String) :
    Option V × CacheState V :=
  match mget st.memoryCache key with
  | some memoryEntry =>
    if isExpired now memoryEntry then (none, cacheDelete st key)
    else (some memoryEntry.value, st)
  | none =>
    match mget st.storage (getStorageKey key) with
    | none => (none, st)
    | some stored =>
      if isExpired now stored then (none, cacheDelete st key)
      else (some stored.value,
        { st with memoryCache := mset st.memoryCache key stored })

/-- `CacheManager.set`: write the fresh entry (per-call ttl, else the
    instance's default) to both tiers. -/
def cacheSet {V : Type} (defaultTtl : Nat) (now : Nat) (st : CacheState V)
    (key : String) (value : V) (ttl : Option Nat) : CacheState V :=
  let entry : CacheEntry V := { value := value, timestamp := now, ttl := ttl.getD defaultTtl }
  { memoryCache := mset st.memoryCache key entry,
    storage := mset st.storage (getStorageKey key) entry }

/-- `CacheManager.has`: `get(key) !== null` (sharing `get`'s state
    updates). -/
def cacheHas {V : Type} (now : Nat) (st : CacheState V) (key : String) :
    Bool × CacheState V :=
  let (v, st') := cacheGet now st key
  (v.isSome, st')

/-! ### The refactored tracker with dual-channel idempotency markers

Modelled from the spec: the refactored `SiteManager` variant (the one with
`PROCESSED_MARKER` DOM markers, `hasElementBeenProcessed`,
`markElementAsProcessed` and `reset(clearDomMarkers)`) is exercised by
`src/ccf-lens/test/unit/rank-badge.test.ts` but its own source file is not
among the repository files, so the definitions below follow the spec's
idempotency and reset contracts (§3 "Idempotency marker", §4.6) and
Scenario D/E: the external marker channel is checked first and is
authoritative; on a marker hit the in-memory set is synchronized and the
entry skipped; `reset` always clears the in-memory result set and id set
and strips external markers only when asked to. -/

/-- A paper as the tracker sees it: a stable id plus the opaque external
    element handle the marker attaches to. -/
structure TPaper where
  id : String
  element : String
deriving DecidableEq

/-- Tracker state: result map, in-memory idempotency id set, and the set
    of element handles currently carrying the external marker. -/
structure TrackerState where
  results : List (String × TPaper)
  memSet : List String
  markers : List String
deriving DecidableEq

/-- Modelled from the spec: `hasElementBeenProcessed` — either channel
    reports processed. -/
def hasElementBeenProcessed (st : TrackerState) (id elem : String) : Bool :=
  st.memSet.contains id || st.markers.contains elem

/-- Modelled from the spec: `markElementAsProcessed` — set both channels. -/
def markElementAsProcessed (st : TrackerState) (id elem : String) : TrackerState :=
  { st with memSet := sadd st.memSet id, markers := sadd st.markers elem }

/-- Modelled from the spec: one entry of the tracker's page scan — the
    external marker is checked first (authoritative across resets; a hit
    syncs the in-memory channel and skips the entry), then the in-memory
    set; a fresh entry is added to the result map and the id set. -/
def trackerProcessPaper (st : TrackerState) (p : TPaper) : TrackerState :=
  if st.markers.contains p.element then { st with memSet := sadd st.memSet p.id }
  else if st.memSet.contains p.id then st
  else
    { st with results := mset st.results p.id p, memSet := sadd st.memSet p.id }

/-- Modelled from the spec: `processCurrentPage` over the scraper's
    (unchanged) result set. -/
def trackerProcessPage (papers : List TPaper) (st : TrackerState) : TrackerState :=
  papers.foldl trackerProcessPaper st

/-- Modelled from the spec: `reset(clearExternalMarkers)` — always clear
    the in-memory result set and id set; strip the marker from every
    tracked entry's element exactly when `clearExternalMarkers` is true. -/
def trackerReset (clearExternalMarkers : Bool) (st : TrackerState) : TrackerState :=
  { results := [],
    memSet := [],
    markers :=
      if clearExternalMarkers then
        st.markers.filter fun m => ¬ st.results.any fun kv => kv.2.element = m
      else st.markers }

/-! ### `DblpService.queryByTitle`

Modelled from the spec: `src/services/dblp-service.ts` is exercised by its
unit tests (`src/unnamed/part_003`) and callers but the source file itself
is not among the repository files.  The model follows spec §4.4: the
external transport is an abstract oracle `net : String → NetOutcome`; an
empty/whitespace title short-circuits; a cache hit returns immediately;
otherwise the call is made, and the outcome is cached only when it is a
success (found, or definitively not-found) — transport errors, timeouts,
non-2xx statuses and parse failures are returned as a structured
`error`/`timedOut` result (never an exception — the model is a total
function) and never written to the cache. -/

/-- `DblpResult` (from the design document and the tests: `found`,
    `venue`, `year`, `dblpUrl`, plus `error` and `timedOut`). -/
structure DblpResult where
  found : Bool
  venue : Option String
  year : Option String
  dblpUrl : Option String
  error : Option String
  timedOut : Bool
deriving DecidableEq

/-- What one external title-search attempt can come back as. -/
inductive NetOutcome where
  | foundHit (venue year url : Option String)
  | notFound
  | netError (msg : String)
  | timedOutO
  | httpError (status : Nat)
  | parseError
deriving DecidableEq

/-- Success means a definitive answer: found, or not-found. -/
def NetOutcome.isSuccess : NetOutcome → Bool
  | .foundHit _ _ _ => true
  | .notFound => true
  | _ => false

/-- Modelled from the spec: the `Result` each outcome surfaces —
    errors are distinguished by message content and the `timedOut` flag
    (the tests check `'Network error'`, `'timeout'`, the status code and
    `'parse'` substrings). -/
def resultOfOutcome : NetOutcome → DblpResult
  | .foundHit v y u =>
    { found := true, venue := v, year := y, dblpUrl := u, error := none, timedOut := false }
  | .notFound =>
    { found := false, venue := none, year := none, dblpUrl := none,
      error := none, timedOut := false }
  | .netError msg =>
    { found := false, venue := none, year := none, dblpUrl := none,
      error := some ("Network error: " ++ msg), timedOut := false }
  | .timedOutO =>
    { found := false, venue := none, year := none, dblpUrl := none,
      error := some "Request timeout", timedOut := true }
  | .httpError status =>
    { found := false, venue := none, year := none, dblpUrl := none,
      error := some ("HTTP error: " ++ toString status), timedOut := false }
  | .parseError =>
    { found := false, venue := none, year := none, dblpUrl := none,
      error := some "Failed to parse DBLP response", timedOut := false }

/-- The short-circuit result for an empty title (test: `error` equals
    `"Empty title provided"`). -/
def emptyTitleResult : DblpResult :=
  { found := false, venue := none, year := none, dblpUrl := none,
    error := some "Empty title provided", timedOut := false }

/-- The namespaced cache key derived from the title (spec §6: a fixed
    per-source prefix plus the logical key). -/
def dblpCacheKey (title : String) : String :=
  "dblp_title_" ++ lowerStr (trimStr title)

/-- What one `queryByTitle` call produced: the result, the cache after
    the call, and whether the external transport was consulted. -/
structure QueryOut where
  result : DblpResult
  cache : CacheState DblpResult
  calledNetwork : Bool
deriving DecidableEq

/-- Modelled from the spec: `DblpService.queryByTitle`. -/
def queryByTitle (net : String → NetOutcome) (now : Nat)
    (cache : CacheState DblpResult) (title : String) : QueryOut :=
  if trimStr title = "" then
    { result := emptyTitleResult, cache := cache, calledNetwork := false }
  else
    let key := dblpCacheKey title
    match cacheGet now cache key with
    | (some cached, cache') =>
      { result := cached, cache := cache', calledNetwork := false }
    | (none, cache') =>
      let outcome := net title
      let result := resultOfOutcome outcome
      if outcome.isSuccess then
        { result := result,
          cache := cacheSet DEFAULT_TTL now cache' key result none,
          calledNetwork := true }
      else { result := result, cache := cache', calledNetwork := true }

/-! ### `useDblpQueue` (`src/unnamed/part_010`)

The queue's synchronous state transitions are embedded directly from the
source; the asynchronous parts (a task's completion callback and the
deferred `setTimeout(drainDblpQueue, 0)` re-drain) become explicit events
of a transition system.  Allowing a `tick` (a drain) at any point is a
superset of the schedules the source can produce (the source only drains
on enqueue and on a scheduled timeout), so the safety invariants proved
over all event sequences cover every real schedule.  Tasks are named by
the ghost counter `nextId` in submission order. -/

/-- `DBLP_LOOKUP_CONCURRENCY = 2`. -/
def DBLP_LOOKUP_CONCURRENCY : Nat := 2

/-- Queue state: pending FIFO queue, in-flight tasks with their captured
    `epochAtStart`, the epoch counter, plus ghost fields `started`
    (ids in start order) and `nextId` (the submission counter). -/
structure QueueState where
  dblpQueue : List Nat
  running : List (Nat × Nat)
  processingEpoch : Nat
  started : List Nat
  nextId : Nat
deriving DecidableEq

/-- The `while` loop of `drainDblpQueue`, with a fuel that each iteration
    decrements; every iteration also shifts one task off the queue, so a
    fuel equal to the queue's length never runs out before the loop's own
    exit condition holds. -/
def drainAux : Nat → QueueState → QueueState
  | 0, st => st
  | fuel + 1, st =>
    match st.dblpQueue with
    | [] => st
    | t :: rest =>
      if st.running.length < DBLP_LOOKUP_CONCURRENCY then
        drainAux fuel
          { st with
            dblpQueue := rest,
            running := st.running ++ [(t, st.processingEpoch)],
            started := st.started ++ [t] }
      else st

/-- `drainDblpQueue`: while the active count is below the cap and the
    queue is non-empty, shift the front task and start it (capturing the
    current epoch). -/
def drainDblpQueue (st : QueueState) : QueueState :=
  drainAux st.dblpQueue.length st

/-- The events of an execution: `enqueueDblpLookup` (append then drain),
    a running task's completion (the `.finally`: decrement; its re-drain
    is a later `tick`), `clearQueue`, and a deferred drain tick. -/
inductive QEvent where
  | enqueueE
  | completeE (id : Nat)
  | clearE
  | tickE
deriving DecidableEq

/-- One event's effect on the queue state. -/
def qstep (st : QueueState) : QEvent → QueueState
  | .enqueueE =>
    drainDblpQueue
      { st with dblpQueue := st.dblpQueue ++ [st.nextId], nextId := st.nextId + 1 }
  | .completeE id =>
    if (st.running.find? fun r => r.1 = id).isSome then
      { st with running := st.running.filter fun r => ¬ r.1 = id }
    else st
  | .clearE =>
    { st with dblpQueue := [], processingEpoch := st.processingEpoch + 1 }
  | .tickE => drainDblpQueue st

/-- The initial queue state. -/
def initQ : QueueState :=
  { dblpQueue := [], running := [], processingEpoch := 0, started := [], nextId := 0 }

/-- An execution: fold the events from the initial state. -/
def qrun (events : List QEvent) : QueueState := events.foldl qstep initQ

/-! ### Spec-side definitions the claims compare against -/

/-- The four-step short-circuiting cascade exactly as claim C2 words it:
    empty or whitespace-only input yields the no-match result; otherwise
    `exact` when `findByKey(v.trim())` succeeds; else `cleaned`, attempted
    only when `cleanVenue(v)` is non-empty and differs from
    `v.trim().toLowerCase()` and the lookup of the cleaned string
    succeeds; else `partial` from the partial scan; else `acronym`,
    attempted only when the generated acronym has length ≥ 2 and its
    lookup succeeds; else the fall-through no-match result carrying
    `originalVenue = v` and `cleanedVenue = cleanVenue v`. -/
def matchSpec (cat : CatalogView) (v : String) : MatchResult :=
  if trimStr v = "" then
    { matched := false, entry := none, confidence := .noneC,
      originalVenue := v, cleanedVenue := cleanVenue v }
  else
    match cat.findByKey (trimStr v) with
    | some e =>
      { matched := true, entry := some e, confidence := .exactC,
        originalVenue := v, cleanedVenue := cleanVenue v }
    | none =>
      match (if cleanVenue v ≠ "" ∧ cleanVenue v ≠ lowerStr (trimStr v)
             then cat.findByKey (cleanVenue v) else none) with
      | some e =>
        { matched := true, entry := some e, confidence := .cleanedC,
          originalVenue := v, cleanedVenue := cleanVenue v }
      | none =>
        match findPartialMatch cat v with
        | some e =>
          { matched := true, entry := some e, confidence := .partialC,
            originalVenue := v, cleanedVenue := cleanVenue v }
        | none =>
          let acr := generateAcronym (if cleanVenue v ≠ "" then cleanVenue v else v)
          match (if acr.length ≥ 2 then cat.findByKey acr else none) with
          | some e =>
            { matched := true, entry := some e, confidence := .acronymC,
              originalVenue := v, cleanedVenue := cleanVenue v }
          | none =>
            { matched := false, entry := none, confidence := .noneC,
              originalVenue := v, cleanedVenue := cleanVenue v }

/-- The condition under which `getStatistics` bumps the bucket of rank
    `r`: a matched result whose entry has rank `r`. -/
def countsInBucket (r : Rank) (p : ProcessedPaperInfo) : Bool :=
  match p.matchResult.matched, p.matchResult.entry with
  | true, some e => e.rank = r
  | _, _ => false

/-- The condition under which `getStatistics` bumps `unknown`: not a
    matched result with an entry. -/
def countsUnknown (p : ProcessedPaperInfo) : Bool :=
  match p.matchResult.matched, p.matchResult.entry with
  | true, some _ => false
  | _, _ => true

/-! ### Sample inputs used by witness theorems -/

/-- An empty catalog view. -/
def emptyCat : CatalogView := { findByKey := fun _ => none, getAllEntries := [] }

/-- A fresh venue-less paper. -/
def samplePaperA : PaperInfo := { id := "a", title := "T", year := none, venue := none }

/-- A paper that is already tracked in `sampleSMState`. -/
def samplePaperZ : PaperInfo := { id := "z", title := "Z", year := none, venue := none }

/-- The tracked record of `samplePaperZ`. -/
def sampleTracked : ProcessedPaperInfo :=
  { paper := samplePaperZ, matchResult := noMatchOf "" "", processed := false }

/-- A tracker state already holding `samplePaperZ`. -/
def sampleSMState : SiteManagerState :=
  { processedPapers := [("z", sampleTracked)], processedElements := ["z"] }

/-- A paper/element pair for the tracker witnesses. -/
def sampleTPaper : TPaper := { id := "z", element := "ez" }

/-- A tracker state with `sampleTPaper` tracked, remembered and marked. -/
def sampleTrackerState : TrackerState :=
  { results := [("z", sampleTPaper)], memSet := ["z"], markers := ["ez"] }

/-- An empty two-tier cache over `DblpResult` for the lookup witnesses. -/
def emptyDblpCache : CacheState DblpResult := { memoryCache := [], storage := [] }

/-! ## Helper lemmas on the JS `Map`/`Set` embedding -/

theorem mget_mset_self {α : Type} (m : List (String × α)) (k : String) (v : α) :
    mget (mset m k v) k = some v := by
  induction m with
  | nil => simp [mset, mget]
  | cons kv rest ih =>
    by_cases h : kv.1 = k
    · simp [mset, mget, h]
    · simp [mset, mget, h, ih]

theorem mget_mset_ne {α : Type} (m : List (String × α)) (k k' : String) (v : α)
    (h : k' ≠ k) : mget (mset m k v) k' = mget m k' := by
  induction m with
  | nil =>
    have h' : ¬ k = k' := fun hh => h hh.symm
    simp [mset, mget, h']
  | cons kv rest ih =>
    by_cases hk : kv.1 = k
    · subst hk
      have h' : ¬ kv.1 = k' := fun hh => h hh.symm
      simp [mset, mget, h']
    · by_cases hk' : kv.1 = k'
      · have h' : ¬ k' = k := h
        simp [mset, mget, hk, hk', h']
      · simp [mset, mget, hk, hk', ih]

theorem mget_isSome_mset {α : Type} (m : List (String × α)) (k k' : String) (v : α)
    (h : (mget m k).isSome) : (mget (mset m k' v) k).isSome := by
  by_cases hk : k = k'
  · subst hk; simp [mget_mset_self]
  · rwa [mget_mset_ne _ _ _ _ hk]

theorem mget_mdel_ne {α : Type} (m : List (String × α)) (k k' : String)
    (h : k' ≠ k) : mget (mdel m k) k' = mget m k' := by
  induction m with
  | nil => simp [mdel]
  | cons kv rest ih =>
    by_cases hk : kv.1 = k
    · subst hk
      have h' : ¬ kv.1 = k' := fun hh => h hh.symm
      simp [mdel, mget, h']
    · by_cases hk' : kv.1 = k'
      · have h' : ¬ k' = k := h
        simp [mdel, mget, hk, hk', h']
      · simp [mdel, mget, hk, hk', ih]

theorem mget_eq_none_of_not_mem {α : Type} (m : List (String × α)) (k : String)
    (h : k ∉ m.map Prod.fst) : mget m k = none := by
  induction m with
  | nil => simp [mget]
  | cons kv rest ih =>
    simp only [List.map_cons, List.mem_cons, not_or] at h
    have hk : ¬ kv.1 = k := fun hh => h.1 hh.symm
    simp [mget, hk, ih h.2]

theorem mget_mdel_self {α : Type} (m : List (String × α)) (k : String)
    (h : (m.map Prod.fst).Nodup) : mget (mdel m k) k = none := by
  induction m with
  | nil => simp [mdel, mget]
  | cons kv rest ih =>
    simp only [List.map_cons, List.nodup_cons] at h
    by_cases hk : kv.1 = k
    · subst hk
      simp only [mdel, if_pos rfl]
      exact mget_eq_none_of_not_mem rest kv.1 h.1
    · simp only [mdel, if_neg hk, mget, if_neg hk]
      exact ih h.2

theorem contains_eq_mem (s : List String) (x : String) :
    s.contains x = true ↔ x ∈ s := by
  simp [List.contains, List.elem_eq_mem]

theorem contains_sadd {s : List String} {x : String} (y : String)
    (h : s.contains x) : (sadd s y).contains x := by
  unfold sadd
  split
  · exact h
  · rw [contains_eq_mem] at h ⊢
    exact List.mem_append.mpr (Or.inl h)

theorem contains_sadd_self (s : List String) (x : String) :
    (sadd s x).contains x := by
  unfold sadd
  split
  next hx => exact hx
  next hx =>
    rw [contains_eq_mem]
    exact List.mem_append.mpr (Or.inr (List.mem_singleton.mpr rfl))

/-! ## Claim C1 — idempotence of cleaning -/

/-- Claim C1: the spec (and the source's own doc comment on `cleanVenue`,
    "This operation is idempotent") demand `clean(clean(x)) == clean(x)`
    for all `x`, and the claim asserts it in particular for a string with
    two trailing dash-separated suffix words.  The code violates this at
    exactly that input: the `suffixes` pattern is `$`-anchored, so one
    pass of `cleanVenue` removes only the last dash suffix of
    `"X - workshop - conference"`, and a second pass removes another,
    giving a different string.  The double `"proceedings of the "` prefix
    behaves the same way (the `^`-anchored pattern strips one layer per
    pass). -/
theorem cleanVenue_not_idempotent_on_repeated_tokens :
    cleanVenue "X - workshop - conference" = "X - workshop" ∧
    cleanVenue (cleanVenue "X - workshop - conference") = "X" ∧
    cleanVenue (cleanVenue "X - workshop - conference") ≠
      cleanVenue "X - workshop - conference" ∧
    cleanVenue "proceedings of the proceedings of the icse" =
      "proceedings of the icse" ∧
    cleanVenue (cleanVenue "proceedings of the proceedings of the icse") = "icse" := by
  exact ⟨by decide, by decide, by decide, by decide, by decide⟩

/-! ## Claim C8 — the enrichment queue's concurrency cap and FIFO order -/

theorem drainAux_inv (fuel : Nat) :
    ∀ st : QueueState,
      st.running.length ≤ DBLP_LOOKUP_CONCURRENCY →
      List.Pairwise (· < ·) (st.started ++ st.dblpQueue) →
      (∀ x ∈ st.started ++ st.dblpQueue, x < st.nextId) →
      (drainAux fuel st).running.length ≤ DBLP_LOOKUP_CONCURRENCY ∧
      List.Pairwise (· < ·) ((drainAux fuel st).started ++ (drainAux fuel st).dblpQueue) ∧
      (∀ x ∈ (drainAux fuel st).started ++ (drainAux fuel st).dblpQueue,
        x < (drainAux fuel st).nextId) := by
  induction fuel with
  | zero => exact fun st h1 h2 h3 => ⟨h1, h2, h3⟩
  | succ fuel ih =>
    rintro ⟨q, run, ep, srt, nid⟩ h1 h2 h3
    cases q with
    | nil => exact ⟨h1, h2, h3⟩
    | cons t rest =>
      by_cases hr : run.length < DBLP_LOOKUP_CONCURRENCY
      · simp only [drainAux, if_pos hr]
        apply ih
        · simpa using hr
        · simpa using h2
        · intro x hx
          apply h3
          simp only [List.mem_append, List.mem_cons, List.mem_singleton] at hx ⊢
          tauto
      · simp only [drainAux, if_neg hr]
        exact ⟨h1, h2, h3⟩

theorem qstep_inv (st : QueueState) (e : QEvent)
    (h1 : st.running.length ≤ DBLP_LOOKUP_CONCURRENCY)
    (h2 : List.Pairwise (· < ·) (st.started ++ st.dblpQueue))
    (h3 : ∀ x ∈ st.started ++ st.dblpQueue, x < st.nextId) :
    (qstep st e).running.length ≤ DBLP_LOOKUP_CONCURRENCY ∧
    List.Pairwise (· < ·) ((qstep st e).started ++ (qstep st e).dblpQueue) ∧
    (∀ x ∈ (qstep st e).started ++ (qstep st e).dblpQueue, x < (qstep st e).nextId) := by
  cases e with
  | enqueueE =>
    apply drainAux_inv
    · simpa using h1
    · have hp : List.Pairwise (· < ·) ((st.started ++ st.dblpQueue) ++ [st.nextId]) := by
        refine List.pairwise_append.mpr ⟨h2, List.pairwise_singleton _ _, ?_⟩
        intro x hx y hy
        rw [List.mem_singleton] at hy
        subst hy
        exact h3 x hx
      simpa [List.append_assoc] using hp
    · intro x hx
      have hx' : x ∈ (st.started ++ st.dblpQueue) ++ [st.nextId] := by
        simpa [List.append_assoc] using hx
      rcases List.mem_append.mp hx' with h | h
      · exact Nat.lt_succ_of_lt (h3 x h)
      · rw [List.mem_singleton] at h
        subst h
        exact Nat.lt_succ_self _
  | completeE id =>
    simp only [qstep]
    split
    · exact ⟨le_trans (List.length_filter_le _ _) h1, h2, h3⟩
    · exact ⟨h1, h2, h3⟩
  | clearE =>
    simp only [qstep, List.append_nil]
    exact ⟨h1, (List.pairwise_append.mp h2).1,
      fun x hx => h3 x (List.mem_append.mpr (Or.inl hx))⟩
  | tickE => exact drainAux_inv _ st h1 h2 h3

/-- Claim C8: over every interleaving of enqueues, completions, queue
    clears and deferred drain ticks, at most `DBLP_LOOKUP_CONCURRENCY = 2`
    tasks are in flight, and the started tasks (named by their submission
    counter) are started in FIFO submission order: the `started` ghost log
    is strictly increasing. -/
theorem dblpQueue_cap_and_fifo (events : List QEvent) :
    (qrun events).running.length ≤ DBLP_LOOKUP_CONCURRENCY ∧
    List.Pairwise (· < ·) (qrun events).started := by
  suffices h : ∀ (evs : List QEvent) (st : QueueState),
      st.running.length ≤ DBLP_LOOKUP_CONCURRENCY →
      List.Pairwise (· < ·) (st.started ++ st.dblpQueue) →
      (∀ x ∈ st.started ++ st.dblpQueue, x < st.nextId) →
      (evs.foldl qstep st).running.length ≤ DBLP_LOOKUP_CONCURRENCY ∧
      List.Pairwise (· < ·) ((evs.foldl qstep st).started ++ (evs.foldl qstep st).dblpQueue) ∧
      (∀ x ∈ (evs.foldl qstep st).started ++ (evs.foldl qstep st).dblpQueue,
        x < (evs.foldl qstep st).nextId) by
    have hres := h events initQ (by simp [initQ, DBLP_LOOKUP_CONCURRENCY])
      (by simp [initQ]) (by simp [initQ])
    exact ⟨hres.1, ((List.pairwise_append.mp hres.2.1).1)⟩
  intro evs
  induction evs with
  | nil => exact fun st h1 h2 h3 => ⟨h1, h2, h3⟩
  | cons e rest ih =>
    intro st h1 h2 h3
    have hstep := qstep_inv st e h1 h2 h3
    exact ih (qstep st e) hstep.1 hstep.2.1 hstep.2.2

/-! ## Claim C9 — cache round-trip, delete and TTL expiry -/

theorem mem_keys_mset {α : Type} (m : List (String × α)) (k : String) (v : α)
    (x : String) (h : x ∈ (mset m k v).map Prod.fst) :
    x ∈ m.map Prod.fst ∨ x = k := by
  induction m with
  | nil => simpa [mset] using h
  | cons kv rest ih =>
    by_cases hk : kv.1 = k
    · subst hk
      simp only [mset, if_pos] at h
      simp only [List.map_cons, List.mem_cons] at h ⊢
      tauto
    · simp only [mset, if_neg hk, List.map_cons, List.mem_cons] at h ⊢
      rcases h with h | h
      · exact Or.inl (Or.inl h)
      · rcases ih h with h' | h'
        · exact Or.inl (Or.inr h')
        · exact Or.inr h'

theorem mset_nodup_keys {α : Type} (m : List (String × α)) (k : String) (v : α)
    (h : (m.map Prod.fst).Nodup) : ((mset m k v).map Prod.fst).Nodup := by
  induction m with
  | nil => simp [mset]
  | cons kv rest ih =>
    simp only [List.map_cons, List.nodup_cons] at h
    by_cases hk : kv.1 = k
    · subst hk
      simp only [mset, if_pos]
      simp only [List.map_cons, List.nodup_cons]
      exact ⟨h.1, h.2⟩
    · simp only [mset, if_neg hk, List.map_cons, List.nodup_cons]
      refine ⟨?_, ih h.2⟩
      intro hmem
      rcases mem_keys_mset rest k v kv.1 hmem with h' | h'
      · exact h.1 h'
      · exact hk h'

/-- Claim C9: `set(k, v)` then `get(k)` returns `v` while
    `now - timestamp ≤ ttl` (with the default TTL of 7 days when no
    per-call ttl is given); after `delete(k)`, `get(k)` is null and
    `has(k)` false; and once `now - timestamp > ttl`, `get(k)` is null
    and the expired record is deleted from both the in-memory tier and
    the persistent tier. -/
theorem cache_ttl_roundtrip {V : Type} (st : CacheState V) (k : String) (v : V)
    (t0 t1 : Nat) (ttlArg : Option Nat)
    (hmemN : (st.memoryCache.map Prod.fst).Nodup)
    (hstoN : (st.storage.map Prod.fst).Nodup)
    (hlive : t1 - t0 ≤ ttlArg.getD DEFAULT_TTL) :
    (cacheGet t1 (cacheSet DEFAULT_TTL t0 st k v ttlArg) k).1 = some v ∧
    DEFAULT_TTL = 604800000 ∧
    (cacheGet t1 (cacheDelete st k) k).1 = none ∧
    (cacheHas t1 (cacheDelete st k) k).1 = false ∧
    (∀ t2, ttlArg.getD DEFAULT_TTL < t2 - t0 →
      (cacheGet t2 (cacheSet DEFAULT_TTL t0 st k v ttlArg) k).1 = none ∧
      mget ((cacheGet t2 (cacheSet DEFAULT_TTL t0 st k v ttlArg) k).2).memoryCache k = none ∧
      mget ((cacheGet t2 (cacheSet DEFAULT_TTL t0 st k v ttlArg) k).2).storage
        (getStorageKey k) = none) := by
  have hsetmem : mget (cacheSet DEFAULT_TTL t0 st k v ttlArg).memoryCache k =
      some { value := v, timestamp := t0, ttl := ttlArg.getD DEFAULT_TTL } := by
    simp [cacheSet, mget_mset_self]
  have hdelmem : mget (cacheDelete st k).memoryCache k = none := by
    simp [cacheDelete, mget_mdel_self _ _ hmemN]
  have hdelsto : mget (cacheDelete st k).storage (getStorageKey k) = none := by
    simp [cacheDelete, mget_mdel_self _ _ hstoN]
  have hdelget : (cacheGet t1 (cacheDelete st k) k).1 = none := by
    simp [cacheGet, hdelmem, hdelsto]
  refine ⟨?_, by decide, hdelget, ?_, ?_⟩
  · have hnotexp : isExpired t1
        ({ value := v, timestamp := t0, ttl := ttlArg.getD DEFAULT_TTL } : CacheEntry V) = false := by
      simp only [isExpired, decide_eq_false_iff_not, not_lt]
      exact hlive
    simp [cacheGet, hsetmem, hnotexp]
  · simp [cacheHas, hdelget]
  · intro t2 hexp
    have hisexp : isExpired t2
        ({ value := v, timestamp := t0, ttl := ttlArg.getD DEFAULT_TTL } : CacheEntry V) = true := by
      simp only [isExpired, decide_eq_true_eq]
      exact hexp
    have hmemN' : ((cacheSet DEFAULT_TTL t0 st k v ttlArg).memoryCache.map Prod.fst).Nodup :=
      mset_nodup_keys _ _ _ hmemN
    have hstoN' : ((cacheSet DEFAULT_TTL t0 st k v ttlArg).storage.map Prod.fst).Nodup :=
      mset_nodup_keys _ _ _ hstoN
    refine ⟨?_, ?_, ?_⟩
    · simp [cacheGet, hsetmem, hisexp]
    · simp [cacheGet, hsetmem, hisexp, cacheDelete, mget_mdel_self _ _ hmemN']
    · simp [cacheGet, hsetmem, hisexp, cacheDelete, mget_mdel_self _ _ hstoN']

/-- Witness for claim C9's theorem at a concrete state, key and clock. -/
theorem cache_ttl_roundtrip_witness :
    (cacheGet 100 (cacheSet DEFAULT_TTL 0
      ({ memoryCache := [], storage := [] } : CacheState Nat) "k" 42 none) "k").1 = some 42 :=
  (cache_ttl_roundtrip { memoryCache := [], storage := [] } "k" 42 0 100 none
    (by decide) (by decide) (by decide)).1

/-! ## Claim C5 — catalog collision resolution and index agreement -/

theorem addToLookupIndex_entries (st : CatState) (key : String) (e : CCFEntry) :
    (addToLookupIndex st key e).entries = st.entries := by
  simp only [addToLookupIndex]
  split <;> rfl

theorem addToLookupIndex_preserves (st : CatState) (key : String) (e : CCFEntry)
    (k : String) (v : CCFEntry) (h : mget st.lookupIndex k = some v) :
    mget (addToLookupIndex st key e).lookupIndex k = some v := by
  simp only [addToLookupIndex]
  split
  next hcond =>
    have hne : k ≠ normKey key := by
      intro he
      rw [← he, h] at hcond
      simp at hcond
    simpa [mget_mset_ne _ _ _ _ hne] using h
  next => exact h

theorem aliasFold_entries (als : List String) (e : CCFEntry) :
    ∀ st : CatState,
      (als.foldl (fun s al => addToLookupIndex s al e) st).entries = st.entries := by
  induction als with
  | nil => intro st; rfl
  | cons a rest ih =>
    intro st
    rw [List.foldl_cons, ih, addToLookupIndex_entries]

theorem aliasFold_preserves (als : List String) (e : CCFEntry) :
    ∀ (st : CatState) (k : String) (v : CCFEntry),
      mget st.lookupIndex k = some v →
      mget ((als.foldl (fun s al => addToLookupIndex s al e) st)).lookupIndex k = some v := by
  induction als with
  | nil => intro st k v h; exact h
  | cons a rest ih =>
    intro st k v h
    exact ih _ k v (addToLookupIndex_preserves st a e k v h)

theorem loadEntry_inv (st : CatState) (e : CCFEntry)
    (h : ∀ k v, mget st.entries k = some v → mget st.lookupIndex k = some v) :
    ∀ k v, mget (loadEntry st e).entries k = some v →
      mget (loadEntry st e).lookupIndex k = some v := by
  intro k v
  unfold loadEntry
  rw [aliasFold_entries, addToLookupIndex_entries]
  intro hk
  apply aliasFold_preserves
  apply addToLookupIndex_preserves
  revert hk
  set abbrKey := trimStr (lowerStr e.abbr) with habbr
  cases hmp : mget st.entries abbrKey with
  | none =>
    by_cases hke : k = abbrKey
    · subst hke
      rw [mget_mset_self]
      intro hv
      rw [mget_mset_self]
      exact hv
    · rw [mget_mset_ne _ _ _ _ hke, mget_mset_ne _ _ _ _ hke]
      exact h k v
  | some cur =>
    by_cases hpref : isPreferredPrimary e cur
    · simp only [if_pos hpref]
      by_cases hke : k = abbrKey
      · subst hke
        rw [mget_mset_self]
        intro hv
        rw [mget_mset_self]
        exact hv
      · rw [mget_mset_ne _ _ _ _ hke, mget_mset_ne _ _ _ _ hke]
        exact h k v
    · simp only [if_neg hpref]
      exact h k v

theorem loadCatalog_inv_aux (raws : List CCFEntry) :
    ∀ st : CatState,
      (∀ k v, mget st.entries k = some v → mget st.lookupIndex k = some v) →
      ∀ k v, mget (raws.foldl loadEntry st).entries k = some v →
        mget (raws.foldl loadEntry st).lookupIndex k = some v := by
  induction raws with
  | nil => intro st h; exact h
  | cons e rest ih =>
    intro st h
    exact ih (loadEntry st e) (loadEntry_inv st e h)

theorem loadEntry_entries_eq (st : CatState) (e : CCFEntry) :
    (loadEntry st e).entries =
      match mget st.entries (trimStr (lowerStr e.abbr)) with
      | none => mset st.entries (trimStr (lowerStr e.abbr)) e
      | some cur =>
        if isPreferredPrimary e cur then mset st.entries (trimStr (lowerStr e.abbr)) e
        else st.entries := by
  unfold loadEntry
  rw [aliasFold_entries, addToLookupIndex_entries]
  cases hmp : mget st.entries (trimStr (lowerStr e.abbr)) with
  | none => rfl
  | some cur =>
    by_cases hpref : isPreferredPrimary e cur
    · simp [hpref]
    · simp [hpref]

theorem expectedPrimary_append (raws : List CCFEntry) (e : CCFEntry) (k : String) :
    expectedPrimary (raws ++ [e]) k =
      if trimStr (lowerStr e.abbr) = k then
        match expectedPrimary raws k with
        | none => some e
        | some cur =>
          if rankScore e.rank > rankScore cur.rank then some e
          else expectedPrimary raws k
      else expectedPrimary raws k := by
  unfold expectedPrimary
  rw [List.filter_append, List.foldl_append]
  by_cases h : trimStr (lowerStr e.abbr) = k
  · rw [if_pos h]
    have hfe : List.filter (fun e' => decide (trimStr (lowerStr e'.abbr) = k)) [e] = [e] := by
      simp [h]
    rw [hfe, List.foldl_cons, List.foldl_nil]
  · rw [if_neg h]
    have hfe : List.filter (fun e' => decide (trimStr (lowerStr e'.abbr) = k)) [e] = [] := by
      simp [h]
    rw [hfe, List.foldl_nil]

theorem loadCatalog_entries_aux (raws : List CCFEntry) :
    ∀ (st : CatState) (pre : List CCFEntry),
      (∀ k, mget st.entries k = expectedPrimary pre k) →
      ∀ k, mget (raws.foldl loadEntry st).entries k = expectedPrimary (pre ++ raws) k := by
  induction raws with
  | nil => intro st pre h k; simpa using h k
  | cons e rest ih =>
    intro st pre h k
    rw [List.foldl_cons]
    have hstep : ∀ k', mget (loadEntry st e).entries k' = expectedPrimary (pre ++ [e]) k' := by
      intro k'
      rw [loadEntry_entries_eq, expectedPrimary_append, h (trimStr (lowerStr e.abbr))]
      by_cases hke : trimStr (lowerStr e.abbr) = k'
      · rw [if_pos hke, ← hke]
        cases hep : expectedPrimary pre (trimStr (lowerStr e.abbr)) with
        | none =>
          dsimp only
          rw [mget_mset_self]
        | some cur =>
          dsimp only
          by_cases hpref : isPreferredPrimary e cur
          · have hsc : rankScore e.rank > rankScore cur.rank := by
              simpa [isPreferredPrimary] using hpref
            rw [if_pos hpref, if_pos hsc, mget_mset_self]
          · have hsc : ¬ rankScore e.rank > rankScore cur.rank := by
              simpa [isPreferredPrimary] using hpref
            rw [if_neg hpref, if_neg hsc, h (trimStr (lowerStr e.abbr)), hep]
      · rw [if_neg hke]
        cases hep : expectedPrimary pre (trimStr (lowerStr e.abbr)) with
        | none =>
          dsimp only
          rw [mget_mset_ne _ _ _ _ (fun hh => hke hh.symm), h k']
        | some cur =>
          dsimp only
          by_cases hpref : isPreferredPrimary e cur
          · rw [if_pos hpref, mget_mset_ne _ _ _ _ (fun hh => hke hh.symm), h k']
          · rw [if_neg hpref, h k']
    have hres := ih (loadEntry st e) (pre ++ [e]) hstep k
    simpa using hres

/-- Claim C5: in the `ccf-lens` catalog, the primary entry stored for any
    abbreviation key is the rank-preferring (A > B > C), first-loaded-on-
    ties entry among the dataset entries sharing that abbreviation, and
    `findByKey` on any abbreviation key returns exactly that primary
    entry — the secondary lookup index agrees with the primary map on
    every key the primary map holds. -/
theorem catalog_collision_and_index_agreement (raws : List CCFEntry) (key : String)
    (e : CCFEntry) (hkey : key ≠ "")
    (hprim : mget (loadCatalog raws).entries (normKey key) = some e) :
    expectedPrimary raws (normKey key) = some e ∧
    catFindByKey (loadCatalog raws) key = some e ∧
    (∀ k v, mget (loadCatalog raws).entries k = some v →
      mget (loadCatalog raws).lookupIndex k = some v) := by
  have hinv : ∀ k v, mget (loadCatalog raws).entries k = some v →
      mget (loadCatalog raws).lookupIndex k = some v := by
    apply loadCatalog_inv_aux
    intro k v h
    simp [mget] at h
  have hprimary : ∀ k, mget (loadCatalog raws).entries k = expectedPrimary raws k := by
    have := loadCatalog_entries_aux raws { entries := [], lookupIndex := [] } []
      (by intro k; simp [mget, expectedPrimary])
    simpa using this
  refine ⟨?_, ?_, hinv⟩
  · rw [← hprimary]
    exact hprim
  · unfold catFindByKey
    rw [if_neg hkey]
    exact hinv _ _ hprim

/-- Witness for claim C5's theorem: two entries colliding on the
    abbreviation `TAC`; the rank-A entry loaded second becomes primary. -/
theorem catalog_collision_witness :
    catFindByKey (loadCatalog
      [{ name := "Theory and Applications One", abbr := "TAC", rank := .B,
         kind := .journal, category := "SE", aliases := [] },
       { name := "Theory and Applications Two", abbr := "TAC", rank := .A,
         kind := .conference, category := "SE", aliases := [] }]) "TAC" =
      some { name := "Theory and Applications Two", abbr := "TAC", rank := .A,
             kind := .conference, category := "SE", aliases := [] } :=
  (catalog_collision_and_index_agreement _ "TAC" _ (by decide) (by decide)).2.1

/-! ## Claim C3 — processing idempotency of the tracker -/

theorem processPaper_elements_mono (cat : CatalogView) (st : SiteManagerState)
    (p : PaperInfo) (x : String) (h : st.processedElements.contains x) :
    (processPaper cat st p).processedElements.contains x := by
  unfold processPaper
  split
  · exact h
  · exact contains_sadd _ h

theorem processPaper_self_elem (cat : CatalogView) (st : SiteManagerState)
    (p : PaperInfo) : (processPaper cat st p).processedElements.contains p.id := by
  unfold processPaper
  split
  next hc => exact hc
  next => exact contains_sadd_self _ _

theorem processPage_elements_mono (cat : CatalogView) (papers : List PaperInfo)
    (x : String) :
    ∀ st : SiteManagerState, st.processedElements.contains x →
      (processCurrentPage cat papers st).processedElements.contains x := by
  induction papers with
  | nil => exact fun st h => h
  | cons p rest ih =>
    intro st h
    exact ih (processPaper cat st p) (processPaper_elements_mono cat st p x h)

theorem processPage_self_elem (cat : CatalogView) (papers : List PaperInfo)
    (p : PaperInfo) (hp : p ∈ papers) :
    ∀ st : SiteManagerState,
      (processCurrentPage cat papers st).processedElements.contains p.id := by
  induction papers with
  | nil => cases hp
  | cons q rest ih =>
    intro st
    rcases List.mem_cons.mp hp with rfl | hmem
    · exact processPage_elements_mono cat rest p.id (processPaper cat st p)
        (processPaper_self_elem cat st p)
    · exact ih hmem (processPaper cat st q)

theorem processPaper_skip (cat : CatalogView) (st : SiteManagerState) (p : PaperInfo)
    (h : st.processedElements.contains p.id) : processPaper cat st p = st := by
  unfold processPaper
  rw [if_pos h]

theorem processPage_skip (cat : CatalogView) (papers : List PaperInfo) :
    ∀ st : SiteManagerState, (∀ p ∈ papers, st.processedElements.contains p.id) →
      processCurrentPage cat papers st = st := by
  induction papers with
  | nil => exact fun st _ => rfl
  | cons p rest ih =>
    intro st h
    show processCurrentPage cat rest (processPaper cat st p) = st
    rw [processPaper_skip cat st p (h p (List.mem_cons_self p rest))]
    exact ih st (fun q hq => h q (List.mem_cons_of_mem p hq))

theorem processPage_idem (cat : CatalogView) (papers : List PaperInfo)
    (st : SiteManagerState) :
    processCurrentPage cat papers (processCurrentPage cat papers st) =
      processCurrentPage cat papers st :=
  processPage_skip cat papers _ (fun p hp => processPage_self_elem cat papers p hp st)

theorem processPaper_mget_of_elem (cat : CatalogView) (st : SiteManagerState)
    (p : PaperInfo) (id : String) (h : st.processedElements.contains id) :
    mget (processPaper cat st p).processedPapers id = mget st.processedPapers id := by
  by_cases hp : st.processedElements.contains p.id
  · rw [processPaper_skip cat st p hp]
  · have hne : id ≠ p.id := by
      intro he
      exact hp (he ▸ h)
    unfold processPaper
    rw [if_neg hp]
    exact mget_mset_ne _ _ _ _ hne

theorem processPage_mget_of_elem (cat : CatalogView) (papers : List PaperInfo)
    (id : String) :
    ∀ st : SiteManagerState, st.processedElements.contains id →
      mget (processCurrentPage cat papers st).processedPapers id =
        mget st.processedPapers id := by
  induction papers with
  | nil => exact fun st _ => rfl
  | cons p rest ih =>
    intro st h
    show mget (processCurrentPage cat rest (processPaper cat st p)).processedPapers id = _
    rw [ih (processPaper cat st p) (processPaper_elements_mono cat st p id h),
      processPaper_mget_of_elem cat st p id h]

theorem processPaper_presence (cat : CatalogView) (st : SiteManagerState)
    (p : PaperInfo) (k : String) (h : (mget st.processedPapers k).isSome) :
    (mget (processPaper cat st p).processedPapers k).isSome := by
  unfold processPaper
  split
  · exact h
  · exact mget_isSome_mset _ _ _ _ h

theorem processPage_presence (cat : CatalogView) (papers : List PaperInfo)
    (k : String) :
    ∀ st : SiteManagerState, (mget st.processedPapers k).isSome →
      (mget (processCurrentPage cat papers st).processedPapers k).isSome := by
  induction papers with
  | nil => exact fun st h => h
  | cons p rest ih =>
    intro st h
    exact ih (processPaper cat st p) (processPaper_presence cat st p k h)

/-- Claim C3: against an unchanged adapter result set, the state after N ≥ 1
    calls to `processCurrentPage` equals the state after one call (so the
    tracked result-set size is stable); an id already in the idempotency
    set keeps its map entry untouched (never re-added or re-classified);
    and entries present in the result map are never removed. -/
theorem processCurrentPage_idempotent (cat : CatalogView) (papers : List PaperInfo)
    (st : SiteManagerState) (n : Nat) (id k : String) (v : ProcessedPaperInfo)
    (hn : 1 ≤ n)
    (hid : st.processedElements.contains id)
    (hkv : mget st.processedPapers k = some v) :
    (processCurrentPage cat papers)^[n] st = processCurrentPage cat papers st ∧
    ((processCurrentPage cat papers)^[n] st).processedPapers.length =
      (processCurrentPage cat papers st).processedPapers.length ∧
    mget (processCurrentPage cat papers st).processedPapers id =
      mget st.processedPapers id ∧
    (mget (processCurrentPage cat papers st).processedPapers k).isSome := by
  have hiter : (processCurrentPage cat papers)^[n] st = processCurrentPage cat papers st := by
    induction n with
    | zero => cases hn
    | succ m ih =>
      rcases Nat.eq_or_lt_of_le hn with h1 | h1
      · rw [← h1]
        exact congrFun (Function.iterate_one _) st
      · have hm : 1 ≤ m := Nat.lt_succ_iff.mp h1
        rw [Function.iterate_succ_apply', ih hm]
        exact processPage_idem cat papers st
  refine ⟨hiter, by rw [hiter], ?_, ?_⟩
  · exact processPage_mget_of_elem cat papers id st hid
  · exact processPage_presence cat papers k st (by simp [hkv])

/-- Witness for claim C3's theorem: a one-paper page, a pre-tracked entry
    and three repeated calls. -/
theorem processCurrentPage_idempotent_witness :
    (processCurrentPage emptyCat [samplePaperA])^[3] sampleSMState =
      processCurrentPage emptyCat [samplePaperA] sampleSMState :=
  (processCurrentPage_idempotent emptyCat [samplePaperA] sampleSMState 3 "z" "z"
    sampleTracked (by decide) (by decide) (by decide)).1

/-! ## Claim C4 — statistics strictly partition the tracked set -/

theorem statStep_sum (s : RankStats) (p : ProcessedPaperInfo) :
    (statStep s p).A + (statStep s p).B + (statStep s p).C + (statStep s p).unknown =
      s.A + s.B + s.C + s.unknown + 1 := by
  unfold statStep
  cases hm : p.matchResult.matched <;> cases he : p.matchResult.entry <;> dsimp only
  · omega
  · omega
  · omega
  · rename_i e
    cases hr : e.rank <;> dsimp only <;> omega

theorem statStep_bucket (s : RankStats) (p : ProcessedPaperInfo) (r : Rank) :
    (match r with
      | .A => (statStep s p).A
      | .B => (statStep s p).B
      | .C => (statStep s p).C) =
    (match r with
      | .A => s.A
      | .B => s.B
      | .C => s.C) + (if countsInBucket r p then 1 else 0) := by
  unfold statStep countsInBucket
  cases hm : p.matchResult.matched <;> cases he : p.matchResult.entry <;> dsimp only
  · cases r <;> simp
  · cases r <;> simp
  · cases r <;> simp
  · rename_i e
    cases hr : e.rank <;> cases r <;> simp

theorem statStep_unknown (s : RankStats) (p : ProcessedPaperInfo) :
    (statStep s p).unknown = s.unknown + (if countsUnknown p then 1 else 0) := by
  unfold statStep countsUnknown
  cases hm : p.matchResult.matched <;> cases he : p.matchResult.entry <;> dsimp only
  · simp
  · simp
  · simp
  · rename_i e
    cases hr : e.rank <;> simp

theorem statsFold_sum (l : List (String × ProcessedPaperInfo)) :
    ∀ s0 : RankStats,
      ((l.foldl (fun s kv => statStep s kv.2) s0).A +
       (l.foldl (fun s kv => statStep s kv.2) s0).B +
       (l.foldl (fun s kv => statStep s kv.2) s0).C +
       (l.foldl (fun s kv => statStep s kv.2) s0).unknown) =
      s0.A + s0.B + s0.C + s0.unknown + l.length := by
  induction l with
  | nil => intro s0; simp
  | cons kv rest ih =>
    intro s0
    rw [List.foldl_cons, ih (statStep s0 kv.2), statStep_sum]
    simp only [List.length_cons]
    omega

theorem statsFold_bucket (l : List (String × ProcessedPaperInfo)) (r : Rank) :
    ∀ s0 : RankStats,
      (match r with
        | .A => (l.foldl (fun s kv => statStep s kv.2) s0).A
        | .B => (l.foldl (fun s kv => statStep s kv.2) s0).B
        | .C => (l.foldl (fun s kv => statStep s kv.2) s0).C) =
      (match r with
        | .A => s0.A
        | .B => s0.B
        | .C => s0.C) + ((l.map Prod.snd).filter (countsInBucket r)).length := by
  induction l with
  | nil => intro s0; cases r <;> simp
  | cons kv rest ih =>
    intro s0
    rw [List.foldl_cons, ih (statStep s0 kv.2)]
    have hstep := statStep_bucket s0 kv.2 r
    by_cases hb : countsInBucket r kv.2
    · rw [if_pos hb] at hstep
      cases r <;> dsimp only at hstep ⊢ <;>
        simp [hstep, List.filter_cons, hb] <;> omega
    · rw [if_neg hb] at hstep
      cases r <;> dsimp only at hstep ⊢ <;>
        simp [hstep, List.filter_cons, hb]

theorem statsFold_unknown (l : List (String × ProcessedPaperInfo)) :
    ∀ s0 : RankStats,
      (l.foldl (fun s kv => statStep s kv.2) s0).unknown =
      s0.unknown + ((l.map Prod.snd).filter countsUnknown).length := by
  induction l with
  | nil => intro s0; simp
  | cons kv rest ih =>
    intro s0
    rw [List.foldl_cons, ih (statStep s0 kv.2), statStep_unknown]
    by_cases hb : countsUnknown kv.2
    · simp [hb, List.filter_cons]
      omega
    · simp [hb, List.filter_cons]

/-- Claim C4: `getStatistics` strictly partitions the tracked set —
    `byRank.A + byRank.B + byRank.C + byRank.unknown` equals the total,
    `unknown` counts exactly the papers whose `matchResult.matched` is
    false, and each letter bucket counts exactly the papers whose matched
    entry's rank equals that letter.  The hypothesis is the `MatchResult`
    well-formedness invariant (claim C10) that every tracked record
    satisfies: `matched` holds exactly when `entry` is present. -/
theorem statistics_partition (st : SiteManagerState)
    (hinv : ∀ kv ∈ st.processedPapers,
      kv.2.matchResult.matched = kv.2.matchResult.entry.isSome) :
    (getStatistics st).2.A + (getStatistics st).2.B + (getStatistics st).2.C +
      (getStatistics st).2.unknown = (getStatistics st).1 ∧
    (getStatistics st).2.unknown =
      ((st.processedPapers.map Prod.snd).filter
        (fun p => !p.matchResult.matched)).length ∧
    (∀ r : Rank,
      (match r with
        | .A => (getStatistics st).2.A
        | .B => (getStatistics st).2.B
        | .C => (getStatistics st).2.C) =
      ((st.processedPapers.map Prod.snd).filter
        (fun p => match p.matchResult.entry with
          | some e => p.matchResult.matched && decide (e.rank = r)
          | none => false)).length) := by
  refine ⟨?_, ?_, ?_⟩
  · unfold getStatistics
    rw [statsFold_sum]
    simp
  · unfold getStatistics
    have hfc : (st.processedPapers.map Prod.snd).filter countsUnknown =
        (st.processedPapers.map Prod.snd).filter (fun p => !p.matchResult.matched) := by
      apply List.filter_congr
      intro p hp
      rcases List.mem_map.mp hp with ⟨kv, hkv, rfl⟩
      have h := hinv kv hkv
      unfold countsUnknown
      cases hm : kv.2.matchResult.matched <;> cases he : kv.2.matchResult.entry
      · rfl
      · rw [hm, he] at h
        simp at h
      · rw [hm, he] at h
        simp at h
      · rfl
    rw [statsFold_unknown, hfc]
    simp
  · intro r
    unfold getStatistics
    have hfc : (st.processedPapers.map Prod.snd).filter (countsInBucket r) =
        (st.processedPapers.map Prod.snd).filter
          (fun p => match p.matchResult.entry with
            | some e => p.matchResult.matched && decide (e.rank = r)
            | none => false) := by
      apply List.filter_congr
      intro p hp
      unfold countsInBucket
      cases hm : p.matchResult.matched <;> cases he : p.matchResult.entry <;> simp
    have hb := statsFold_bucket st.processedPapers r
      { A := 0, B := 0, C := 0, unknown := 0 }
    rw [hfc] at hb
    cases r <;> dsimp only at hb ⊢ <;> omega

/-- Witness for claim C4's theorem on a concrete tracked state. -/
theorem statistics_partition_witness :
    (getStatistics sampleSMState).2.A + (getStatistics sampleSMState).2.B +
      (getStatistics sampleSMState).2.C + (getStatistics sampleSMState).2.unknown =
      (getStatistics sampleSMState).1 :=
  (statistics_partition sampleSMState (by decide)).1

/-! ## Claim C10 — the MatchResult well-formedness invariant -/

/-- Claim C10: every `MatchResult` out of `VenueMatcher.match` satisfies
    `matched` ↔ the entry is present ↔ the confidence is not `none` —
    the unstated invariant behind the tracker's rank filter and the
    statistics partition. -/
theorem matchResult_wellformed (cat : CatalogView) (v : String) :
    ((matchVenue cat v).matched = (matchVenue cat v).entry.isSome) ∧
    ((matchVenue cat v).matched = true ↔ (matchVenue cat v).confidence ≠ .noneC) := by
  simp only [matchVenue]
  split
  · simp [noMatchOf]
  · split
    · simp
    · split
      · simp
      · split
        · simp
        · split
          · simp
          · simp [noMatchOf]

/-! ## Claim C2 — the four-step short-circuiting cascade -/

theorem string_len_two_ne_empty (s : String) (h : s.length ≥ 2) : s ≠ "" := by
  intro he
  subst he
  exact absurd h (by decide)

/-- Claim C2: `VenueMatcher.match` implements exactly the cascade the
    claim describes (`matchSpec`, written from the claim's wording), and
    empty or whitespace-only input never consults the catalog: the result
    is the same for every catalog. -/
theorem match_implements_cascade (cat cat' : CatalogView) (v : String) :
    matchVenue cat v = matchSpec cat v ∧
    (trimStr v = "" → matchVenue cat v = matchVenue cat' v) := by
  constructor
  · by_cases ht : trimStr v = ""
    · have hcond : v = "" ∨ trimStr v = "" := Or.inr ht
      simp only [matchVenue, matchSpec, if_pos hcond, if_pos ht, noMatchOf]
    · have hcond : ¬ (v = "" ∨ trimStr v = "") := by
        rintro (rfl | hh)
        · exact ht (by decide)
        · exact ht hh
      simp only [matchVenue, matchSpec, if_neg hcond, if_neg ht]
      cases hfk : cat.findByKey (trimStr v) with
      | some e => rfl
      | none =>
        cases hcl : (if cleanVenue v ≠ "" ∧ cleanVenue v ≠ lowerStr (trimStr v)
            then cat.findByKey (cleanVenue v) else none) with
        | some e => rfl
        | none =>
          cases hpm : findPartialMatch cat v with
          | some e => rfl
          | none =>
            have hguard :
                (if generateAcronym (if cleanVenue v ≠ "" then cleanVenue v else v) ≠ "" ∧
                    (generateAcronym (if cleanVenue v ≠ "" then cleanVenue v else v)).length ≥ 2
                  then cat.findByKey
                    (generateAcronym (if cleanVenue v ≠ "" then cleanVenue v else v))
                  else none) =
                (if (generateAcronym (if cleanVenue v ≠ "" then cleanVenue v else v)).length ≥ 2
                  then cat.findByKey
                    (generateAcronym (if cleanVenue v ≠ "" then cleanVenue v else v))
                  else none) := by
              by_cases h2 :
                  (generateAcronym (if cleanVenue v ≠ "" then cleanVenue v else v)).length ≥ 2
              · rw [if_pos ⟨string_len_two_ne_empty _ h2, h2⟩, if_pos h2]
              · rw [if_neg (fun hc => h2 hc.2), if_neg h2]
            rw [hguard]
            dsimp only
            cases hak : (if (generateAcronym
                (if cleanVenue v ≠ "" then cleanVenue v else v)).length ≥ 2
                then cat.findByKey
                  (generateAcronym (if cleanVenue v ≠ "" then cleanVenue v else v))
                else none) with
            | some e => rfl
            | none => rfl
  · intro ht
    have hcond : v = "" ∨ trimStr v = "" := Or.inr ht
    simp only [matchVenue, if_pos hcond]

/-! ## Claim C6 — the reset contract of the dual-channel tracker -/

theorem not_contains_sadd (s : List String) (x y : String)
    (h : ¬ s.contains x = true) (hxy : x ≠ y) : ¬ (sadd s y).contains x = true := by
  unfold sadd
  split
  · exact h
  · intro hc
    rcases List.mem_append.mp ((contains_eq_mem _ _).mp hc) with hcs | hcy
    · exact h ((contains_eq_mem _ _).mpr hcs)
    · exact hxy (List.mem_singleton.mp hcy)

theorem mget_mem {α : Type} (m : List (String × α)) (k : String) (v : α)
    (h : mget m k = some v) : (k, v) ∈ m := by
  induction m with
  | nil => simp [mget] at h
  | cons kv rest ih =>
    obtain ⟨k1, v1⟩ := kv
    by_cases hk : k1 = k
    · subst hk
      have hv : v1 = v := by
        rw [mget, if_pos rfl] at h
        simpa using h
      subst hv
      exact List.mem_cons_self _ _
    · rw [mget, if_neg hk] at h
      exact List.mem_cons_of_mem _ (ih h)

theorem trackerProcessPaper_markers (st : TrackerState) (p : TPaper) :
    (trackerProcessPaper st p).markers = st.markers := by
  unfold trackerProcessPaper
  split
  · rfl
  · split
    · rfl
    · rfl

theorem trackerPage_markers (papers : List TPaper) :
    ∀ st : TrackerState, (trackerProcessPage papers st).markers = st.markers := by
  induction papers with
  | nil => exact fun st => rfl
  | cons q rest ih =>
    intro st
    show (trackerProcessPage rest (trackerProcessPaper st q)).markers = st.markers
    rw [ih, trackerProcessPaper_markers]

theorem trackerProcessPaper_presence (st : TrackerState) (p : TPaper) (k : String)
    (h : (mget st.results k).isSome) :
    (mget (trackerProcessPaper st p).results k).isSome := by
  unfold trackerProcessPaper
  split
  · exact h
  · split
    · exact h
    · exact mget_isSome_mset _ _ _ _ h

theorem trackerPage_presence (papers : List TPaper) (k : String) :
    ∀ st : TrackerState, (mget st.results k).isSome →
      (mget (trackerProcessPage papers st).results k).isSome := by
  induction papers with
  | nil => exact fun st h => h
  | cons q rest ih =>
    intro st h
    exact ih (trackerProcessPaper st q) (trackerProcessPaper_presence st q k h)

theorem trackerPage_includes (papers : List TPaper) (p : TPaper) :
    ∀ st : TrackerState, p ∈ papers →
      (∀ q ∈ papers, q.id = p.id → q = p) →
      ¬ st.markers.contains p.element = true →
      ¬ st.memSet.contains p.id = true →
      (mget (trackerProcessPage papers st).results p.id).isSome := by
  induction papers with
  | nil => intro st hp; cases hp
  | cons q rest ih =>
    intro st hp huniq hmk hms
    show (mget (trackerProcessPage rest (trackerProcessPaper st q)).results p.id).isSome
    by_cases hqp : q.id = p.id
    · have hq : q = p := huniq q (List.mem_cons_self q rest) hqp
      subst hq
      have hstep : mget (trackerProcessPaper st q).results q.id = some q := by
        unfold trackerProcessPaper
        rw [if_neg hmk, if_neg hms]
        exact mget_mset_self _ _ _
      exact trackerPage_presence rest q.id (trackerProcessPaper st q) (by simp [hstep])
    · have hpr : p ∈ rest := by
        rcases List.mem_cons.mp hp with rfl | hr
        · exact absurd rfl hqp
        · exact hr
      apply ih (trackerProcessPaper st q) hpr
        (fun q' hq' hid => huniq q' (List.mem_cons_of_mem q hq') hid)
      · rw [trackerProcessPaper_markers]
        exact hmk
      · unfold trackerProcessPaper
        split
        · exact not_contains_sadd _ _ _ hms (fun he => hqp he.symm)
        · split
          · exact hms
          · exact not_contains_sadd _ _ _ hms (fun he => hqp he.symm)

theorem trackerPage_excludes (papers : List TPaper) (pid : String) :
    ∀ st : TrackerState,
      (∀ q ∈ papers, q.id = pid → st.markers.contains q.element = true) →
      mget st.results pid = none →
      mget (trackerProcessPage papers st).results pid = none := by
  induction papers with
  | nil => exact fun st _ h0 => h0
  | cons q rest ih =>
    intro st hq h0
    show mget (trackerProcessPage rest (trackerProcessPaper st q)).results pid = none
    apply ih
    · intro q' hq' hid
      rw [trackerProcessPaper_markers]
      exact hq q' (List.mem_cons_of_mem q hq') hid
    · by_cases hqp : q.id = pid
      · have hm := hq q (List.mem_cons_self q rest) hqp
        unfold trackerProcessPaper
        rw [if_pos hm]
        exact h0
      · unfold trackerProcessPaper
        split
        · exact h0
        · split
          · exact h0
          · rw [mget_mset_ne _ _ _ _ (fun hh => hqp hh.symm)]
            exact h0

/-- Claim C6 (spec-modelled): `reset(clearExternalMarkers)` always clears
    the in-memory result set and id set; with `true` it also strips the
    tracked entry's external marker so the next `processCurrentPage`
    re-includes the entry; with `false` the markers survive, so the next
    scan still excludes the entry although the in-memory state is empty. -/
theorem tracker_reset_contract (st : TrackerState) (p : TPaper) (papers : List TPaper)
    (hp : mget st.results p.id = some p)
    (hm : st.markers.contains p.element = true)
    (hmem : p ∈ papers)
    (huniq : ∀ q ∈ papers, q.id = p.id → q = p) :
    (trackerReset true st).results = [] ∧ (trackerReset true st).memSet = [] ∧
    (trackerReset false st).results = [] ∧ (trackerReset false st).memSet = [] ∧
    (trackerReset true st).markers.contains p.element = false ∧
    (trackerReset false st).markers = st.markers ∧
    (mget (trackerProcessPage papers (trackerReset true st)).results p.id).isSome ∧
    mget (trackerProcessPage papers (trackerReset false st)).results p.id = none := by
  have hgone : ¬ (trackerReset true st).markers.contains p.element = true := by
    intro hc
    have hmem' := (contains_eq_mem _ _).mp hc
    unfold trackerReset at hmem'
    simp only [if_pos] at hmem'
    rcases List.mem_filter.mp hmem' with ⟨_, hpred⟩
    rw [decide_eq_true_eq] at hpred
    apply hpred
    rw [List.any_eq_true]
    exact ⟨(p.id, p), mget_mem _ _ _ hp, by simp⟩
  refine ⟨rfl, rfl, rfl, rfl, ?_, rfl, ?_, ?_⟩
  · cases hc : (trackerReset true st).markers.contains p.element
    · rfl
    · exact absurd hc hgone
  · exact trackerPage_includes papers p (trackerReset true st) hmem huniq hgone
      (by simp [trackerReset])
  · apply trackerPage_excludes papers p.id (trackerReset false st)
    · intro q hq hid
      have hqp : q = p := huniq q hq hid
      subst hqp
      exact hm
    · rfl

/-! ## Claim C7 — the fallback lookup caches only successes -/

/-- Claim C7 (spec-modelled): on a cache miss, `queryByTitle` consults
    the transport; a transport error, timeout, non-2xx status or parse
    failure yields a `Result` with a non-null `error` (a value, never an
    exception — the model is total), leaves the cache untouched, and a
    subsequent identical query performs the external call again; a
    success (found or definitively not-found) yields `error = null`, is
    cached, and the subsequent identical query is served from the cache
    without a network call; a timeout also sets `timedOut`. -/
theorem queryByTitle_contract (net : String → NetOutcome) (now : Nat)
    (cache : CacheState DblpResult) (title : String)
    (htitle : trimStr title ≠ "")
    (hmem : mget cache.memoryCache (dblpCacheKey title) = none)
    (hsto : mget cache.storage (getStorageKey (dblpCacheKey title)) = none) :
    (queryByTitle net now cache title).calledNetwork = true ∧
    (¬ (net title).isSuccess = true →
      (queryByTitle net now cache title).result.error ≠ none ∧
      (queryByTitle net now cache title).cache = cache ∧
      (queryByTitle net now (queryByTitle net now cache title).cache title).calledNetwork
        = true) ∧
    ((net title).isSuccess = true →
      (queryByTitle net now cache title).result.error = none ∧
      (queryByTitle net now (queryByTitle net now cache title).cache title).calledNetwork
        = false ∧
      (queryByTitle net now (queryByTitle net now cache title).cache title).result =
        (queryByTitle net now cache title).result) ∧
    (net title = .timedOutO → (queryByTitle net now cache title).result.timedOut = true) := by
  have hget : cacheGet now cache (dblpCacheKey title) = (none, cache) := by
    unfold cacheGet
    rw [hmem, hsto]
  have hfirst : queryByTitle net now cache title =
      (if (net title).isSuccess
        then { result := resultOfOutcome (net title),
               cache := cacheSet DEFAULT_TTL now cache (dblpCacheKey title)
                 (resultOfOutcome (net title)) none,
               calledNetwork := true }
        else { result := resultOfOutcome (net title), cache := cache,
               calledNetwork := true } : QueryOut) := by
    simp only [queryByTitle, if_neg htitle, hget]
  refine ⟨?_, ?_, ?_, ?_⟩
  · rw [hfirst]
    split <;> rfl
  · intro hfail
    rw [hfirst, if_neg hfail]
    refine ⟨?_, rfl, ?_⟩
    · cases ho : net title
      · rw [ho] at hfail
        simp [NetOutcome.isSuccess] at hfail
      · rw [ho] at hfail
        simp [NetOutcome.isSuccess] at hfail
      · simp [resultOfOutcome]
      · simp [resultOfOutcome]
      · simp [resultOfOutcome]
      · simp [resultOfOutcome]
    · dsimp only
      simp only [queryByTitle, if_neg htitle, hget]
      split <;> rfl
  · intro hsucc
    have hentry : mget (cacheSet DEFAULT_TTL now cache (dblpCacheKey title) (resultOfOutcome (net title)) none).memoryCache (dblpCacheKey title) = some { value := resultOfOutcome (net title), timestamp := now, ttl := DEFAULT_TTL } := by
      simp [cacheSet, mget_mset_self]
    have hexp : isExpired now ({ value := resultOfOutcome (net title), timestamp := now, ttl := DEFAULT_TTL } : CacheEntry DblpResult) = false := by
      simp [isExpired, Nat.sub_self]
    have hhit : cacheGet now (cacheSet DEFAULT_TTL now cache (dblpCacheKey title) (resultOfOutcome (net title)) none) (dblpCacheKey title) = (some (resultOfOutcome (net title)), cacheSet DEFAULT_TTL now cache (dblpCacheKey title) (resultOfOutcome (net title)) none) := by
      simp only [cacheGet, hentry, hexp]
      simp
    rw [hfirst, if_pos hsucc]
    dsimp only
    refine ⟨?_, ?_, ?_⟩
    · cases ho : net title
      · simp [resultOfOutcome]
      · simp [resultOfOutcome]
      · rw [ho] at hsucc
        simp [NetOutcome.isSuccess] at hsucc
      · rw [ho] at hsucc
        simp [NetOutcome.isSuccess] at hsucc
      · rw [ho] at hsucc
        simp [NetOutcome.isSuccess] at hsucc
      · rw [ho] at hsucc
        simp [NetOutcome.isSuccess] at hsucc
    · simp only [queryByTitle, if_neg htitle, hhit]
    · simp only [queryByTitle, if_neg htitle, hhit]
  · intro hto
    rw [hfirst, hto]
    simp [NetOutcome.isSuccess, resultOfOutcome]

/-- Witness for claim C6's theorem at a concrete tracker state. -/
theorem tracker_reset_contract_witness :
    (trackerReset true sampleTrackerState).results = [] :=
  (tracker_reset_contract sampleTrackerState sampleTPaper [sampleTPaper]
    (by decide) (by decide) (by decide) (by decide)).1

/-- Witness for claim C7's theorem: a not-found transport on an empty cache. -/
theorem queryByTitle_contract_witness :
    (queryByTitle (fun _ => .notFound) 0 emptyDblpCache "T").calledNetwork = true :=
  (queryByTitle_contract (fun _ => .notFound) 0 emptyDblpCache "T"
    (by decide) (by decide) (by decide)).1

end CCFLens

